import Mathlib

/-!
Verification of the floating-point precision-study repository.

The development shallowly embeds the core of the repository:

* the custom 8-bit floating-point codec `p3109_quantize` / `p3109_dequantize`
  and the arithmetic wrapper `P3109Number`,
* the iterative kernels `newton_raphson` and `gradient_descent_quadratic`,
* the FIR filter kernel `fir_filter`,
* the precision registry lookup `precision_from_string`.

A 32-bit IEEE float value is modelled by `F32`: NaN, a signed infinity, or a
finite dyadic value `(-1)^sign * m * 2^e` (every finite float has this form,
and signed zeros are `m = 0` with the sign kept).  All the float operations
performed by the codec on finite inputs (frexp, scaling by powers of two,
subtracting 1 from a value in `[1, 2)`, rounding to an integer) are exact in
IEEE arithmetic, so the dyadic model computes exactly what the C code computes.
The arithmetic of the generic kernels is modelled over `ℚ` (exact arithmetic),
and the inner 32-bit operation of the 8-bit wrapper is kept as an abstract
function parameter where a claim holds for every such operation.
-/

set_option maxRecDepth 4000

namespace FPStudy

/-- Model of a 32-bit IEEE float value: NaN, signed infinity (`true` means
negative), or a finite dyadic value with sign bit, significand `m : ℕ` and
scale `e : ℤ`, denoting `(-1)^sign * m * 2^e`.  A zero is `m = 0` with the
sign bit kept (signed zero). -/
inductive F32 where
  | nan : F32
  | inf : Bool → F32
  | fin : Bool → ℕ → ℤ → F32
deriving DecidableEq

/-- Fuel-based recursion for `bitLen` so that the kernel can evaluate it. -/
def bitLenAux : ℕ → ℕ → ℕ
  | 0, _ => 0
  | fuel + 1, n => if n = 0 then 0 else bitLenAux fuel (n / 2) + 1

/-- Number of binary digits of a natural number: `bitLen 0 = 0` and for
`n ≥ 1`, `bitLen n` is the unique `L` with `2^(L-1) ≤ n < 2^L`.  This is what
`std::frexp` computes on a dyadic float: for `|v| = m * 2^e` with `m ≥ 1` the
frexp exponent satisfying `|v| = mant * 2^exp`, `mant ∈ [0.5, 1)`, is
`exp = e + bitLen m`. -/
def bitLen (n : ℕ) : ℕ := bitLenAux n n

/-- The layout record of the 8-bit format (`struct P3109Layout`): sign 1 bit,
`exponent_bits` exponent bits, `mantissa_bits` mantissa bits, exponent bias. -/
structure P3109Layout where
  exponent_bits : ℕ
  mantissa_bits : ℕ
  exponent_bias : ℤ

/-- The default layout used at every call site: 3 exponent bits, 4 mantissa
bits, bias 3. -/
def p3109Default : P3109Layout := ⟨3, 4, 3⟩

/-- Round the nonnegative dyadic `m / 2^k` to the nearest integer, halves up:
exactly what `std::round` (round half away from zero) does on the nonnegative
arguments that occur in `p3109_quantize`. -/
def roundHalfUp (m k : ℕ) : ℕ := (m + (1 <<< k) / 2) >>> k

/-- The rounded mantissa field computed by `p3109_quantize` for a nonzero
finite input with significand `m`: with `mant = m / 2^(bitLen m) ∈ [0.5, 1)`,
the source computes `round((mant * 2 - 1) * 2^mb)`, which equals
`round(m * 2^(mb + 1) / 2^(bitLen m)) - 2^mb`; the scaling is exact whenever
`bitLen m ≤ mb + 1` and otherwise rounds a dyadic with positive denominator. -/
def quantMantissa (mb : ℕ) (m : ℕ) : ℕ :=
  (if bitLen m ≤ mb + 1 then m <<< (mb + 1 - bitLen m)
   else roundHalfUp m (bitLen m - (mb + 1))) - (1 <<< mb)

/-- Shallow embedding of `p3109_quantize` (src/unnamed/part_000, lines
213-258).  `std::isnan` / `std::isinf` / `std::signbit` / `std::fabs` are the
case analysis on `F32`; `std::frexp` on `|v| = m * 2^e` yields the exponent
`e + bitLen m`; the mantissa rounding is `quantMantissa`.  In the two
saturation returns, C operator precedence parses the source expression as
`sign_bit | (((max_exp + 1) << mantissa_bits) - 1)`. -/
def p3109_quantize (v : F32) (L : P3109Layout) : ℕ :=
  match v with
  | .nan => 0xFF
  | .inf neg => if neg then 0xFE else 0x7F
  | .fin neg m e =>
    if m = 0 then (if neg then 0x80 else 0x00)
    else
      let exp : ℤ := e + bitLen m
      let exp_val : ℤ := exp + L.exponent_bias - 1
      let max_exp : ℤ := (1 <<< L.exponent_bits : ℕ) - 2
      let min_exp : ℤ := 1
      if exp_val > max_exp then
        (if neg then 0x80 else 0x00) ||| (((max_exp + 1).toNat <<< L.mantissa_bits) - 1)
      else if exp_val < min_exp then
        (if neg then 0x80 else 0x00)
      else
        let mantissa_mask : ℕ := (1 <<< L.mantissa_bits) - 1
        let mantissa : ℕ := quantMantissa L.mantissa_bits m
        if mantissa > mantissa_mask then
          if exp_val + 1 > max_exp then
            (if neg then 0x80 else 0x00) ||| (((max_exp + 1).toNat <<< L.mantissa_bits) - 1)
          else
            (if neg then 0x80 else 0x00) ||| ((exp_val + 1).toNat <<< L.mantissa_bits)
        else
          (if neg then 0x80 else 0x00) ||| (exp_val.toNat <<< L.mantissa_bits) ||| mantissa

/-- Shallow embedding of `p3109_dequantize` (src/unnamed/part_000, lines
260-286).  The reconstructed value `±(1 + mantissa / 2^mb) * 2^(exponent -
bias)` is the dyadic `±(2^mb + mantissa) * 2^(exponent - bias - mb)`. -/
def p3109_dequantize (c : ℕ) (L : P3109Layout) : F32 :=
  if c = 0xFF then .nan
  else if c = 0x7F then .inf false
  else if c = 0xFE then .inf true
  else
    let negative : Bool := (c &&& 0x80) != 0
    let mantissa_mask : ℕ := (1 <<< L.mantissa_bits) - 1
    let exponent_mask : ℕ := (1 <<< L.exponent_bits) - 1
    let exponent : ℕ := (c >>> L.mantissa_bits) &&& exponent_mask
    let mantissa : ℕ := c &&& mantissa_mask
    if exponent = 0 then .fin negative 0 0
    else .fin negative ((1 <<< L.mantissa_bits) + mantissa)
      ((exponent : ℤ) - L.exponent_bias - L.mantissa_bits)

/-- Exponent field of a packed byte under the default layout (the 3 bits above
the 4-bit mantissa field). -/
def expField (c : ℕ) : ℕ := (c >>> 4) &&& 0x7

/-- Mantissa field of a packed byte under the default layout (low 4 bits). -/
def mantField (c : ℕ) : ℕ := c &&& 0xF

/-- The three reserved byte encodings: `0x7F` = +infinity, `0xFE` = -infinity,
`0xFF` = NaN. -/
def reservedCode (c : ℕ) : Prop := c = 0x7F ∨ c = 0xFE ∨ c = 0xFF

instance (c : ℕ) : Decidable (reservedCode c) := by
  unfold reservedCode
  exact inferInstance

/-- The codes reachable as outputs of `p3109_quantize` under the default
layout: reserved codes, the two signed zeros, and normalized codes with
exponent field in `[1, 6]`. -/
def goodCode (c : ℕ) : Prop :=
  c < 256 ∧ (reservedCode c ∨ (expField c = 0 ∧ mantField c = 0) ∨
    (1 ≤ expField c ∧ expField c ≤ 6))

instance (c : ℕ) : Decidable (goodCode c) := by
  unfold goodCode
  exact inferInstance

/-- Negation of a modelled float: flips the sign bit, also on zeros and
infinities; `-NaN` stays NaN (the model carries no NaN payload and
`p3109_quantize` inspects only NaN-ness). -/
def F32.neg : F32 → F32
  | .nan => .nan
  | .inf b => .inf (!b)
  | .fin b m e => .fin (!b) m e

/-- Whether a modelled float is finite (a dyadic value, zero included). -/
def F32.isFinite : F32 → Bool
  | .fin _ _ _ => true
  | _ => false

/-- Shallow embedding of `P3109Number::operator-` (src/unnamed/part_000, lines
74-79): dequantize the stored code, negate the float, requantize. -/
def p3109_neg (c : ℕ) (L : P3109Layout) : ℕ :=
  p3109_quantize (F32.neg (p3109_dequantize c L)) L

/-- Shallow embedding of the compound-assignment operators of `P3109Number`
(src/unnamed/part_000, lines 42-72), with the process-wide flag
`accumulate_in_fp32_` passed explicitly and `combine` standing for the 32-bit
float operation applied to the dequantized operands (`lhs + rhs`, `lhs - rhs`,
`lhs * rhs` or `lhs / rhs`); the claims proved about the wrapper hold for
every such operation, so it stays an abstract parameter. -/
def p3109_wrapper_op (flag : Bool) (combine : F32 → F32 → F32) (a b : ℕ)
  (L : P3109Layout) : ℕ :=
  let lhs := p3109_dequantize a L
  let rhs := p3109_dequantize b L
  let res := if flag then combine lhs rhs
    else p3109_dequantize (p3109_quantize (combine lhs rhs) L) L
  p3109_quantize res L

/-- Result record of `newton_raphson` (`struct NewtonResult`), over the
rational model of `T = double`. -/
structure NewtonResult where
  root : ℚ
  iterations : ℕ
  converged : Bool
deriving DecidableEq

/-- Options of `newton_raphson` (`struct NewtonOptions`). -/
structure NewtonOptions where
  max_iters : ℕ
  tol : ℚ

/-- The loop of `newton_raphson` (src/include/algorithms/newton.hpp, lines
26-38), as recursion on the remaining iteration budget; `iter` is the loop
counter, so a call with `remaining + iter = max_iters` models the source loop
state.  The arithmetic of `T = double` and the casts to double are modelled by
exact rationals; `std::fabs` is the rational absolute value. -/
def newtonLoop (f df : ℚ → ℚ) (opts : NewtonOptions) :
  ℕ → ℕ → ℚ → NewtonResult
  | 0, _, x => ⟨x, opts.max_iters, false⟩
  | remaining + 1, iter, x =>
    let fx := f x
    let dfx := df x
    let abs_fx := |fx|
    if abs_fx < opts.tol then ⟨x, iter, true⟩
    else if dfx = 0 then ⟨x, iter, false⟩
    else newtonLoop f df opts remaining (iter + 1) (x - fx / dfx)

/-- Shallow embedding of `newton_raphson` (src/include/algorithms/newton.hpp,
lines 20-39). -/
def newton_raphson (initial : ℚ) (f df : ℚ → ℚ) (opts : NewtonOptions) :
  NewtonResult :=
  newtonLoop f df opts opts.max_iters 0 initial

/-- One Newton update `x - f x / df x` (line 36 of newton.hpp). -/
def newtonStep (f df : ℚ → ℚ) (x : ℚ) : ℚ := x - f x / df x

/-- The k-th point of the mathematical Newton trajectory: what the loop
variable `x` holds at the start of iteration `k` when no guard has fired
earlier. -/
def newtonIter (f df : ℚ → ℚ) (x0 : ℚ) (k : ℕ) : ℚ := (newtonStep f df)^[k] x0

/-- Result record of `gradient_descent_quadratic`
(`struct GradientDescentResult`). -/
structure GradientDescentResult where
  x : List ℚ
  iterations : ℕ
  converged : Bool
deriving DecidableEq

/-- Options of `gradient_descent_quadratic`
(`struct GradientDescentOptions`). -/
structure GradientDescentOptions where
  step_size : ℚ
  max_iters : ℕ
  tol : ℚ

/-- Indexing of a `std::vector` modelled as a list: entry `i`, defaulting to 0
(the theorems about the kernel only evaluate in-range indices). -/
def getD (l : List ℚ) (i : ℕ) : ℚ := l.getD i 0

/-- The gradient `Q x + b` computed by the kernel (lines 98-104 of the
gradient-descent source): entry `i` folds `acc = acc + Q[i*dim+j] * x[j]` over
`j` and adds `b[i]`. -/
def gdGradient (Q b x : List ℚ) (dim : ℕ) : List ℚ :=
  (List.range dim).map (fun i =>
    ((List.range dim).foldl (fun acc j => acc + getD Q (i * dim + j) * getD x j) 0)
      + getD b i)

/-- The squared gradient norm accumulated by the kernel (lines 105-109):
`grad_norm += gd * gd` over the gradient entries.  The source then compares
`std::sqrt(grad_norm) < tol`. -/
def gdNormSq (g : List ℚ) : ℚ := g.foldl (fun acc gd => acc + gd * gd) 0

/-- The update `x[i] = x[i] - step_size * gradient[i]` for `i < dim` (lines
114-116); entries beyond `dim` are untouched, like in the source. -/
def gdUpdate (x g : List ℚ) (step : ℚ) (dim : ℕ) : List ℚ :=
  (List.range x.length).map (fun i =>
    if i < dim then getD x i - step * getD g i else getD x i)

/-- The loop of `gradient_descent_quadratic` (lines 97-117), as recursion on
the remaining iteration budget with loop counter `iter`.  The stopping test
`std::sqrt(grad_norm) < tol` is expressed without square roots: for
`s ≥ 0`, `sqrt s < tol` holds exactly when `s < tol * |tol|` (for `tol ≥ 0`
this is `s < tol^2`; for `tol < 0` both sides are false). -/
def gdLoop (Q b : List ℚ) (dim : ℕ) (opts : GradientDescentOptions) :
  ℕ → ℕ → List ℚ → GradientDescentResult
  | 0, _, x => ⟨x, opts.max_iters, false⟩
  | remaining + 1, iter, x =>
    let gradient := gdGradient Q b x dim
    let grad_norm_sq := gdNormSq gradient
    if grad_norm_sq < opts.tol * |opts.tol| then ⟨x, iter, true⟩
    else gdLoop Q b dim opts remaining (iter + 1)
      (gdUpdate x gradient opts.step_size dim)

/-- Shallow embedding of `gradient_descent_quadratic` (the gradient-descent
source concatenated after fir.hpp, lines 89-119 of that file). -/
def gradient_descent_quadratic (Q b initial : List ℚ) (dim : ℕ)
  (opts : GradientDescentOptions) : GradientDescentResult :=
  gdLoop Q b dim opts opts.max_iters 0 initial

/-- One full gradient-descent update of the iterate vector. -/
def gdStep (Q b : List ℚ) (dim : ℕ) (step : ℚ) (x : List ℚ) : List ℚ :=
  gdUpdate x (gdGradient Q b x dim) step dim

/-- The k-th point of the mathematical gradient-descent trajectory. -/
def gdIter (Q b : List ℚ) (dim : ℕ) (step : ℚ) (x0 : List ℚ) (k : ℕ) :
  List ℚ :=
  (gdStep Q b dim step)^[k] x0

/-- Options of `fir_filter` (`struct FIROptions`, defaults
`use_kahan = false`, `accumulate_in_fp32 = false`). -/
structure FIROptions where
  use_kahan : Bool
  accumulate_in_fp32 : Bool

/-- The default `FIROptions` used by `fir_filter<double>(h, x)`. -/
def firDefaultOptions : FIROptions := ⟨false, false⟩

/-- One output cell of the FIR filter (the inner loop of `fir_filter`,
src/include/algorithms/fir.hpp lines 22-61): fold over the taps `k < M`,
skipping `k > n` (causal zero padding), accumulating either plainly or with
the Kahan compensation pair `(sum, compensation)`. -/
def firCell (h x : List ℚ) (use_kahan : Bool) (n M : ℕ) : ℚ :=
  ((List.range M).foldl (fun sc k =>
    if k ≤ n then
      let prod := getD h k * getD x (n - k)
      if use_kahan then
        let y := prod - sc.2
        let t := sc.1 + y
        (t, (t - sc.1) - y)
      else (sc.1 + prod, sc.2)
    else sc) ((0 : ℚ), (0 : ℚ))).1

/-- Shallow embedding of `fir_filter` (src/include/algorithms/fir.hpp, lines
14-64) at `T = double`, with double arithmetic modelled by exact rationals.
In the model the 32-bit working precision of the `accumulate_in_fp32` branch
is the same exact arithmetic, so both branches compute `firCell`. -/
def fir_filter (h x : List ℚ) (opts : FIROptions) : List ℚ :=
  (List.range x.length).map (fun n =>
    if opts.accumulate_in_fp32 then firCell h x opts.use_kahan n h.length
    else firCell h x opts.use_kahan n h.length)

/-- The precision enumeration (`enum class Precision`). -/
inductive Precision where
  | FP64 : Precision
  | FP32 : Precision
  | TF32 : Precision
  | BF16 : Precision
  | P3109_8 : Precision
deriving DecidableEq

/-- Model of the helper `to_lower` (src/src/main.cpp): lowercase every
character (mapped over the string's character list).  `Char.toLower`
lowercases exactly the ASCII uppercase letters, which is what `std::tolower`
does in the C locale. -/
def to_lower (s : String) : String := ⟨s.data.map Char.toLower⟩

/-- The lookup table of `precision_from_string` (src/src/main.cpp, lines
492-512); the `std::unordered_map` is modelled as an association list (the
keys are distinct, so lookup agrees). -/
def precisionMap : List (String × Precision) :=
  [("fp64", .FP64), ("float64", .FP64),
   ("fp32", .FP32), ("float32", .FP32),
   ("tf32", .TF32), ("tensorfloat32", .TF32),
   ("bf16", .BF16), ("bfloat16", .BF16),
   ("p3109", .P3109_8), ("p3109_8", .P3109_8)]

/-- Shallow embedding of `precision_from_string`: lowercase the name and look
it up; the `throw std::runtime_error(...)` on a miss is modelled by
`Except.error` carrying the same message. -/
def precision_from_string (name : String) : Except String Precision :=
  match precisionMap.lookup (to_lower name) with
  | some p => .ok p
  | none => .error ("Unknown precision string: " ++ name)

theorem bitLenAux_zero (fuel : ℕ) : bitLenAux fuel 0 = 0 := by
  cases fuel <;> simp [bitLenAux]

theorem bitLenAux_bounds (fuel : ℕ) :
    ∀ n : ℕ, n ≤ fuel → 1 ≤ n →
      2 ^ (bitLenAux fuel n - 1) ≤ n ∧ n < 2 ^ bitLenAux fuel n := by
  induction fuel with
  | zero => intro n h h1; omega
  | succ fuel ih =>
    intro n hle h1
    rw [show bitLenAux (fuel + 1) n
      = if n = 0 then 0 else bitLenAux fuel (n / 2) + 1 from rfl]
    rw [if_neg (by omega)]
    by_cases h2 : n / 2 = 0
    · have hn : n = 1 := by omega
      subst hn
      rw [show (1 : ℕ) / 2 = 0 from rfl, bitLenAux_zero]
      norm_num
    · obtain ⟨hlo, hhi⟩ := ih (n / 2) (by omega) (by omega)
      have hL1 : 1 ≤ bitLenAux fuel (n / 2) := by
        rcases Nat.eq_zero_or_pos (bitLenAux fuel (n / 2)) with h0 | h0
        · rw [h0] at hhi
          simp at hhi
          omega
        · exact h0
      set L := bitLenAux fuel (n / 2) with hLdef
      have hp : 2 ^ L = 2 * 2 ^ (L - 1) := by
        conv_lhs => rw [show L = (L - 1) + 1 by omega]
        rw [pow_succ]
        ring
      have hp2 : 2 ^ (L + 1) = 2 * 2 ^ L := by
        rw [pow_succ]
        ring
      constructor
      · have hgoal : 2 ^ L ≤ n := by omega
        simpa using hgoal
      · omega

theorem bitLen_lower (n : ℕ) (h : 1 ≤ n) : 2 ^ (bitLen n - 1) ≤ n :=
  (bitLenAux_bounds n n le_rfl h).1

theorem bitLen_upper (n : ℕ) (h : 1 ≤ n) : n < 2 ^ bitLen n :=
  (bitLenAux_bounds n n le_rfl h).2

theorem bitLen_pos (n : ℕ) (h : 1 ≤ n) : 1 ≤ bitLen n := by
  have hup := bitLen_upper n h
  rcases Nat.eq_zero_or_pos (bitLen n) with h0 | h0
  · rw [h0] at hup
    simp at hup
    omega
  · exact h0

theorem quantMantissa_le (mb m : ℕ) (h : 1 ≤ m) : quantMantissa mb m ≤ 2 ^ mb := by
  unfold quantMantissa
  have hup := bitLen_upper m h
  have hlo := bitLen_lower m h
  have hpos := bitLen_pos m h
  set b := bitLen m with hb
  split_ifs with hcase
  · rw [Nat.shiftLeft_eq, Nat.shiftLeft_eq]
    have h1 : (m + 1) * 2 ^ (mb + 1 - b) ≤ 2 ^ b * 2 ^ (mb + 1 - b) :=
      Nat.mul_le_mul_right _ (by omega)
    have h1e : (m + 1) * 2 ^ (mb + 1 - b) = m * 2 ^ (mb + 1 - b) + 2 ^ (mb + 1 - b) := by
      ring
    have h2 : (2 : ℕ) ^ b * 2 ^ (mb + 1 - b) = 2 ^ (mb + 1) := by
      rw [← pow_add]
      congr 1
      omega
    have h3 : (2 : ℕ) ^ (mb + 1) = 2 * 2 ^ mb := by
      rw [pow_succ]
      ring
    have h4 : 1 ≤ (2 : ℕ) ^ (mb + 1 - b) := Nat.one_le_two_pow
    omega
  · unfold roundHalfUp
    rw [Nat.shiftRight_eq_div_pow, Nat.shiftLeft_eq, Nat.shiftLeft_eq]
    set k := b - (mb + 1) with hk
    have hk1 : 1 ≤ k := by omega
    have h5 : (2 : ℕ) ^ k = 2 * 2 ^ (k - 1) := by
      conv_lhs => rw [show k = (k - 1) + 1 by omega]
      rw [pow_succ]
      ring
    have h6 : (2 : ℕ) ^ b = 2 ^ (mb + 1) * 2 ^ k := by
      rw [← pow_add]
      congr 1
      omega
    have h7 : (2 : ℕ) ^ (mb + 1) = 2 * 2 ^ mb := by
      rw [pow_succ]
      ring
    have h9 : (2 ^ (mb + 1) + 1) * 2 ^ k = 2 ^ (mb + 1) * 2 ^ k + 2 ^ k := by
      ring
    have hx : m + 1 * 2 ^ k / 2 < (2 ^ (mb + 1) + 1) * 2 ^ k := by omega
    have h8 := (Nat.div_lt_iff_lt_mul (by positivity : 0 < (2 : ℕ) ^ k)).2 hx
    omega

theorem goodCode_pack : ∀ (s : Bool), ∀ ev < 6, ∀ mt < 16,
    goodCode ((if s then 0x80 else 0x00) ||| ((ev + 1) <<< 4) ||| mt) := by
  decide

theorem goodCode_pack0 : ∀ (s : Bool), ∀ ev < 6,
    goodCode ((if s then 0x80 else 0x00) ||| ((ev + 1) <<< 4)) := by
  decide

theorem goodCode_packN (s8 : ℕ) (hs : s8 = 128 ∨ s8 = 0) (ev : ℤ) (h1 : 1 ≤ ev)
    (h2 : ev ≤ 6) (mt : ℕ) (h3 : mt < 16) :
    goodCode (s8 ||| (ev.toNat <<< 4) ||| mt) := by
  have h4 : ev.toNat - 1 < 6 := by omega
  have h6 : ev.toNat - 1 + 1 = ev.toNat := by omega
  rcases hs with hs | hs <;> subst hs
  · have h5 := goodCode_pack true (ev.toNat - 1) h4 mt h3
    rw [h6] at h5
    simpa using h5
  · have h5 := goodCode_pack false (ev.toNat - 1) h4 mt h3
    rw [h6] at h5
    simpa using h5

theorem goodCode_pack0N (s8 : ℕ) (hs : s8 = 128 ∨ s8 = 0) (ev : ℤ) (h1 : 1 ≤ ev)
    (h2 : ev ≤ 6) :
    goodCode (s8 ||| (ev.toNat <<< 4)) := by
  have h4 : ev.toNat - 1 < 6 := by omega
  have h6 : ev.toNat - 1 + 1 = ev.toNat := by omega
  rcases hs with hs | hs <;> subst hs
  · have h5 := goodCode_pack0 true (ev.toNat - 1) h4
    rw [h6] at h5
    simpa using h5
  · have h5 := goodCode_pack0 false (ev.toNat - 1) h4
    rw [h6] at h5
    simpa using h5

theorem quantize_good : ∀ v : F32, goodCode (p3109_quantize v p3109Default) := by
  intro v
  match v with
  | .nan => decide
  | .inf b => cases b <;> decide
  | .fin neg m e =>
    by_cases hm : m = 0
    · subst hm
      cases neg <;> simp [p3109_quantize] <;> decide
    · have h1 : 1 ≤ m := by omega
      have hman : quantMantissa 4 m ≤ 16 := by simpa using quantMantissa_le 4 m h1
      simp only [p3109_quantize, p3109Default, if_neg hm,
        show ((1 : ℕ) <<< 3) = 8 from rfl, show ((1 : ℕ) <<< 4) = 16 from rfl]
      split_ifs <;>
        first
          | decide
          | (apply goodCode_pack0N <;> omega)
          | (apply goodCode_packN <;> omega)

theorem good_roundtrip : ∀ c < 256, goodCode c →
    p3109_quantize (p3109_dequantize c p3109Default) p3109Default = c := by
  decide

theorem good_negneg : ∀ c < 256, goodCode c →
    p3109_neg (p3109_neg c p3109Default) p3109Default = c := by
  decide

theorem quantize_proj (v : F32) :
    p3109_quantize (p3109_dequantize (p3109_quantize v p3109Default) p3109Default)
      p3109Default = p3109_quantize v p3109Default := by
  have hg := quantize_good v
  exact good_roundtrip _ hg.1 hg

/-- Claim C1, counterexample: the round trip fails on non-reserved codes.  The
code `0x70` (exponent field 7, mantissa 0) dequantizes to `16.0`, which
quantizes back to the saturation code `0x6F`; the code `0x01` (exponent field
0, nonzero mantissa) dequantizes to `+0.0`, which quantizes back to `0x00`. -/
theorem C1_counterexample :
    ¬reservedCode 0x70 ∧
    p3109_quantize (p3109_dequantize 0x70 p3109Default) p3109Default ≠ 0x70 ∧
    ¬reservedCode 0x01 ∧
    p3109_quantize (p3109_dequantize 0x01 p3109Default) p3109Default ≠ 0x01 := by
  decide

/-- Claim C1 (amended): quantizing the result of dequantizing `c` returns `c`
for every non-reserved code `c` whose exponent field lies in `[1, 6]`, and for
the two signed-zero codes (exponent field 0 with zero mantissa); the remaining
non-reserved codes (exponent field 7, and exponent field 0 with nonzero
mantissa) are not round-tripped. -/
theorem C1_theorem (c : ℕ) (hlt : c < 256) (_hres : ¬reservedCode c)
    (hfield : (expField c = 0 ∧ mantField c = 0) ∨
      (1 ≤ expField c ∧ expField c ≤ 6)) :
    p3109_quantize (p3109_dequantize c p3109Default) p3109Default = c :=
  good_roundtrip c hlt ⟨hlt, Or.inr hfield⟩

/-- Witness for C1 at the concrete code `0x35`. -/
theorem C1_witness :
    p3109_quantize (p3109_dequantize 0x35 p3109Default) p3109Default = 0x35 :=
  C1_theorem 0x35 (by decide) (by decide) (by decide)

/-- Claim C2: on direct exponent overflow (`exp_val > max_exp`, stated via the
frexp exponent `e + bitLen m`) and on rounding carry out of the top exponent
(`exp_val = max_exp` and the rounded mantissa overflows the 4-bit field),
`p3109_quantize` returns the maximum-magnitude finite code of the correct
sign, whose exponent field is the maximum 6 and whose mantissa field is
all-ones, and never an infinity code. -/
theorem C2_theorem (neg : Bool) (m : ℕ) (e : ℤ) (hm : 1 ≤ m)
    (hover : 6 < e + bitLen m + 3 - 1 ∨
      (e + bitLen m + 3 - 1 = 6 ∧ 15 < quantMantissa 4 m)) :
    p3109_quantize (.fin neg m e) p3109Default
      = ((if neg then 0x80 else 0x00) ||| 0x6F) ∧
    expField ((if neg then 0x80 else 0x00) ||| 0x6F) = 6 ∧
    mantField ((if neg then 0x80 else 0x00) ||| 0x6F) = 15 ∧
    ((if neg then 0x80 else 0x00) ||| 0x6F) ≠ 0x7F ∧
    ((if neg then 0x80 else 0x00) ||| 0x6F) ≠ 0xFE := by
  have hm0 : ¬(m = 0) := by omega
  simp only [p3109_quantize, p3109Default, if_neg hm0,
    show ((1 : ℕ) <<< 3) = 8 from rfl, show ((1 : ℕ) <<< 4) = 16 from rfl]
  rcases hover with h | ⟨h6, hcar⟩ <;>
    (split_ifs <;> first | decide | (exfalso; omega))

/-- Witness for C2: direct overflow at `+1 * 2^10 = 1024` and rounding carry
at `-63 * 2^-2 = -15.75`. -/
theorem C2_witness :
    p3109_quantize (.fin false 1 10) p3109Default
      = ((if false then 0x80 else 0x00) ||| 0x6F) ∧
    p3109_quantize (.fin true 63 (-2)) p3109Default
      = ((if true then 0x80 else 0x00) ||| 0x6F) :=
  ⟨(C2_theorem false 1 10 (by decide) (by decide)).1,
   (C2_theorem true 63 (-2) (by decide) (by decide)).1⟩

/-- Claim C3: the packed code produced by a wrapper arithmetic operation does
not depend on the global `accumulate_in_fp32` flag — for every 32-bit
operation `combine` (in particular the four `+ - * /`) and every pair of
stored codes, the flag-true and flag-false paths yield the same byte. -/
theorem C3_theorem (combine : F32 → F32 → F32) (a b : ℕ) :
    p3109_wrapper_op true combine a b p3109Default =
      p3109_wrapper_op false combine a b p3109Default := by
  simp only [p3109_wrapper_op, if_pos, if_neg]
  exact (quantize_proj
    (combine (p3109_dequantize a p3109Default) (p3109_dequantize b p3109Default))).symm

/-- Claim C4, counterexample: double negation is not the identity for every
`P3109Number`: the raw code `0x70` (constructible through the explicit
`uint8_t` constructor) negates to the saturation code `0xEF` and negates back
to `0x6F`, not `0x70`. -/
theorem C4_counterexample :
    p3109_neg (p3109_neg 0x70 p3109Default) p3109Default = 0x6F ∧
    (0x6F : ℕ) ≠ 0x70 := by
  decide

/-- Claim C4 (amended): applying unary negation twice returns the original
packed code bit-for-bit for every `P3109Number` whose code was produced by
quantization (every value built from a float, i.e. every reachable code);
raw codes with exponent field 7, or 0 with nonzero mantissa, are excluded. -/
theorem C4_theorem (v : F32) :
    p3109_neg (p3109_neg (p3109_quantize v p3109Default) p3109Default) p3109Default
      = p3109_quantize v p3109Default := by
  have hg := quantize_good v
  exact good_negneg _ hg.1 hg

/-- Claim C5: `quantize(NaN) = 0xFF` and dequantizing it yields NaN;
`quantize(±inf)` round-trips through dequantize to the same signed infinity;
`quantize(±0.0)` produces the signed-zero codes `0x00` / `0x80`, whose
dequantization preserves the sign of zero. -/
theorem C5_theorem :
    p3109_quantize .nan p3109Default = 0xFF ∧
    p3109_dequantize 0xFF p3109Default = .nan ∧
    p3109_quantize (.inf false) p3109Default = 0x7F ∧
    p3109_dequantize (p3109_quantize (.inf false) p3109Default) p3109Default
      = .inf false ∧
    p3109_quantize (.inf true) p3109Default = 0xFE ∧
    p3109_dequantize (p3109_quantize (.inf true) p3109Default) p3109Default
      = .inf true ∧
    p3109_quantize (.fin false 0 0) p3109Default = 0x00 ∧
    p3109_dequantize (p3109_quantize (.fin false 0 0) p3109Default) p3109Default
      = .fin false 0 0 ∧
    p3109_quantize (.fin true 0 0) p3109Default = 0x80 ∧
    p3109_dequantize (p3109_quantize (.fin true 0 0) p3109Default) p3109Default
      = .fin true 0 0 := by
  decide

/-- Claim C10: every code produced by `p3109_quantize` is either one of the
three reserved codes or has exponent field at most 6, so the non-reserved
bytes with exponent field 7 are unreachable through quantization — even
though `p3109_dequantize` assigns each of them a finite value. -/
theorem C10_theorem :
    (∀ v : F32, reservedCode (p3109_quantize v p3109Default) ∨
      expField (p3109_quantize v p3109Default) ≤ 6) ∧
    (∀ c : Fin 256, reservedCode c.val ∨ expField c.val ≠ 7 ∨
      (p3109_dequantize c.val p3109Default).isFinite = true) := by
  constructor
  · intro v
    have hg := quantize_good v
    rcases hg.2 with h | h | h
    · exact Or.inl h
    · right
      omega
    · right
      omega
  · decide

theorem newtonLoop_unfold (f df : ℚ → ℚ) (opts : NewtonOptions) (r iter : ℕ)
    (x : ℚ) :
    newtonLoop f df opts (r + 1) iter x =
      if |f x| < opts.tol then ⟨x, iter, true⟩
      else if df x = 0 then ⟨x, iter, false⟩
      else newtonLoop f df opts r (iter + 1) (x - f x / df x) :=
  rfl

theorem newtonLoop_steps (f df : ℚ → ℚ) (opts : NewtonOptions) :
    ∀ (k r iter : ℕ) (x : ℚ), k ≤ r →
      (∀ j < k, ¬(|f ((newtonStep f df)^[j] x)| < opts.tol) ∧
        df ((newtonStep f df)^[j] x) ≠ 0) →
      newtonLoop f df opts r iter x =
        newtonLoop f df opts (r - k) (iter + k) ((newtonStep f df)^[k] x) := by
  intro k
  induction k with
  | zero =>
    intro r iter x h hg
    simp
  | succ k ih =>
    intro r iter x hkr hg
    obtain ⟨hc, hd⟩ := hg 0 (by omega)
    simp only [Function.iterate_zero, id_eq] at hc hd
    obtain ⟨r', rfl⟩ : ∃ r', r = r' + 1 := ⟨r - 1, by omega⟩
    rw [newtonLoop_unfold, if_neg hc, if_neg hd]
    have hg' : ∀ j < k, ¬(|f ((newtonStep f df)^[j] (newtonStep f df x))| < opts.tol) ∧
        df ((newtonStep f df)^[j] (newtonStep f df x)) ≠ 0 := by
      intro j hj
      have h2 := hg (j + 1) (by omega)
      rwa [Function.iterate_succ_apply] at h2
    have hstep : x - f x / df x = newtonStep f df x := rfl
    rw [hstep]
    rw [show r' + 1 - (k + 1) = r' - k by omega,
      show iter + (k + 1) = iter + 1 + k by omega,
      Function.iterate_succ_apply]
    exact ih r' (iter + 1) (newtonStep f df x) (by omega) hg'

theorem newton_converged_at (f df : ℚ → ℚ) (opts : NewtonOptions) (x0 : ℚ)
    (k : ℕ) (hk : k < opts.max_iters)
    (hg : ∀ j < k, ¬(|f (newtonIter f df x0 j)| < opts.tol) ∧
      df (newtonIter f df x0 j) ≠ 0)
    (hc : |f (newtonIter f df x0 k)| < opts.tol) :
    newton_raphson x0 f df opts = ⟨newtonIter f df x0 k, k, true⟩ := by
  unfold newton_raphson newtonIter at *
  rw [newtonLoop_steps f df opts k opts.max_iters 0 x0 (by omega) hg]
  obtain ⟨r', hr⟩ : ∃ r', opts.max_iters - k = r' + 1 :=
    ⟨opts.max_iters - k - 1, by omega⟩
  rw [hr, newtonLoop_unfold, if_pos hc, Nat.zero_add]

theorem newton_deriv_zero_at (f df : ℚ → ℚ) (opts : NewtonOptions) (x0 : ℚ)
    (k : ℕ) (hk : k < opts.max_iters)
    (hg : ∀ j < k, ¬(|f (newtonIter f df x0 j)| < opts.tol) ∧
      df (newtonIter f df x0 j) ≠ 0)
    (hnc : ¬(|f (newtonIter f df x0 k)| < opts.tol))
    (hdz : df (newtonIter f df x0 k) = 0) :
    newton_raphson x0 f df opts = ⟨newtonIter f df x0 k, k, false⟩ := by
  unfold newton_raphson newtonIter at *
  rw [newtonLoop_steps f df opts k opts.max_iters 0 x0 (by omega) hg]
  obtain ⟨r', hr⟩ : ∃ r', opts.max_iters - k = r' + 1 :=
    ⟨opts.max_iters - k - 1, by omega⟩
  rw [hr, newtonLoop_unfold, if_neg hnc, if_pos hdz, Nat.zero_add]

theorem newton_exhausted (f df : ℚ → ℚ) (opts : NewtonOptions) (x0 : ℚ)
    (hg : ∀ j < opts.max_iters, ¬(|f (newtonIter f df x0 j)| < opts.tol) ∧
      df (newtonIter f df x0 j) ≠ 0) :
    newton_raphson x0 f df opts =
      ⟨newtonIter f df x0 opts.max_iters, opts.max_iters, false⟩ := by
  unfold newton_raphson newtonIter at *
  rw [newtonLoop_steps f df opts opts.max_iters opts.max_iters 0 x0 le_rfl hg]
  rw [Nat.sub_self, Nat.zero_add]
  rfl

theorem gdLoop_unfold (Q b : List ℚ) (dim : ℕ) (opts : GradientDescentOptions)
    (r iter : ℕ) (x : List ℚ) :
    gdLoop Q b dim opts (r + 1) iter x =
      if gdNormSq (gdGradient Q b x dim) < opts.tol * |opts.tol| then
        ⟨x, iter, true⟩
      else gdLoop Q b dim opts r (iter + 1)
        (gdUpdate x (gdGradient Q b x dim) opts.step_size dim) :=
  rfl

theorem gdLoop_steps (Q b : List ℚ) (dim : ℕ) (opts : GradientDescentOptions) :
    ∀ (k r iter : ℕ) (x : List ℚ), k ≤ r →
      (∀ j < k, ¬(gdNormSq (gdGradient Q b ((gdStep Q b dim opts.step_size)^[j] x) dim) <
        opts.tol * |opts.tol|)) →
      gdLoop Q b dim opts r iter x =
        gdLoop Q b dim opts (r - k) (iter + k) ((gdStep Q b dim opts.step_size)^[k] x) := by
  intro k
  induction k with
  | zero =>
    intro r iter x h hg
    simp
  | succ k ih =>
    intro r iter x hkr hg
    have hc := hg 0 (by omega)
    simp only [Function.iterate_zero, id_eq] at hc
    obtain ⟨r', rfl⟩ : ∃ r', r = r' + 1 := ⟨r - 1, by omega⟩
    rw [gdLoop_unfold, if_neg hc]
    have hg' : ∀ j < k,
        ¬(gdNormSq (gdGradient Q b ((gdStep Q b dim opts.step_size)^[j]
          (gdStep Q b dim opts.step_size x)) dim) < opts.tol * |opts.tol|) := by
      intro j hj
      have h2 := hg (j + 1) (by omega)
      rwa [Function.iterate_succ_apply] at h2
    have hstep : gdUpdate x (gdGradient Q b x dim) opts.step_size dim =
        gdStep Q b dim opts.step_size x := rfl
    rw [hstep]
    rw [show r' + 1 - (k + 1) = r' - k by omega,
      show iter + (k + 1) = iter + 1 + k by omega,
      Function.iterate_succ_apply]
    exact ih r' (iter + 1) (gdStep Q b dim opts.step_size x) (by omega) hg'

theorem gd_converged_at (Q b x0 : List ℚ) (dim : ℕ)
    (opts : GradientDescentOptions) (k : ℕ) (hk : k < opts.max_iters)
    (hg : ∀ j < k, ¬(gdNormSq (gdGradient Q b (gdIter Q b dim opts.step_size x0 j) dim) <
      opts.tol * |opts.tol|))
    (hc : gdNormSq (gdGradient Q b (gdIter Q b dim opts.step_size x0 k) dim) <
      opts.tol * |opts.tol|) :
    gradient_descent_quadratic Q b x0 dim opts =
      ⟨gdIter Q b dim opts.step_size x0 k, k, true⟩ := by
  unfold gradient_descent_quadratic gdIter at *
  rw [gdLoop_steps Q b dim opts k opts.max_iters 0 x0 (by omega) hg]
  obtain ⟨r', hr⟩ : ∃ r', opts.max_iters - k = r' + 1 :=
    ⟨opts.max_iters - k - 1, by omega⟩
  rw [hr, gdLoop_unfold, if_pos hc, Nat.zero_add]

/-- Claim C6: in both iterative kernels the stopping criterion is evaluated
before the update; the kernel returns converged with the index at which the
criterion first holds (given that the loop reached that index: the criterion
failed and, for Newton, the derivative was nonzero at every earlier iterate);
in particular, when the criterion already holds at the initial point, the
result is the initial point with `iterations = 0` and `converged = true`. -/
theorem C6_theorem :
    (∀ (f df : ℚ → ℚ) (opts : NewtonOptions) (x0 : ℚ) (k : ℕ),
      k < opts.max_iters →
      (∀ j < k, ¬(|f (newtonIter f df x0 j)| < opts.tol) ∧
        df (newtonIter f df x0 j) ≠ 0) →
      |f (newtonIter f df x0 k)| < opts.tol →
      newton_raphson x0 f df opts = ⟨newtonIter f df x0 k, k, true⟩) ∧
    (∀ (f df : ℚ → ℚ) (opts : NewtonOptions) (x0 : ℚ),
      0 < opts.max_iters → |f x0| < opts.tol →
      newton_raphson x0 f df opts = ⟨x0, 0, true⟩) ∧
    (∀ (Q b x0 : List ℚ) (dim : ℕ) (opts : GradientDescentOptions) (k : ℕ),
      k < opts.max_iters →
      (∀ j < k, ¬(gdNormSq (gdGradient Q b (gdIter Q b dim opts.step_size x0 j) dim) <
        opts.tol * |opts.tol|)) →
      gdNormSq (gdGradient Q b (gdIter Q b dim opts.step_size x0 k) dim) <
        opts.tol * |opts.tol| →
      gradient_descent_quadratic Q b x0 dim opts =
        ⟨gdIter Q b dim opts.step_size x0 k, k, true⟩) ∧
    (∀ (Q b x0 : List ℚ) (dim : ℕ) (opts : GradientDescentOptions),
      0 < opts.max_iters →
      gdNormSq (gdGradient Q b x0 dim) < opts.tol * |opts.tol| →
      gradient_descent_quadratic Q b x0 dim opts = ⟨x0, 0, true⟩) := by
  refine ⟨newton_converged_at, ?_, gd_converged_at, ?_⟩
  · intro f df opts x0 hpos hc
    have h := newton_converged_at f df opts x0 0 hpos (by omega)
      (by simpa [newtonIter] using hc)
    simpa [newtonIter] using h
  · intro Q b x0 dim opts hpos hc
    have h := gd_converged_at Q b x0 dim opts 0 hpos (by omega)
      (by simpa [gdIter] using hc)
    simpa [gdIter] using h

/-- Witness for C6: for `f = 0` the criterion holds at the initial point, and
both kernels return it unchanged with `iterations = 0` and `converged`. -/
theorem C6_witness :
    newton_raphson 0 (fun _ => 0) (fun _ => 1) ⟨5, 1⟩ = ⟨0, 0, true⟩ ∧
    gradient_descent_quadratic [] [] [] 0 ⟨1, 5, 1⟩ = ⟨[], 0, true⟩ := by
  constructor
  · exact C6_theorem.2.1 (fun _ => 0) (fun _ => 1) ⟨5, 1⟩ 0 (by simp) (by simp)
  · exact C6_theorem.2.2.2 [] [] [] 0 ⟨1, 5, 1⟩ (by simp)
      (by simp [gdGradient, gdNormSq])

/-- Claim C7: `newton_raphson` is total (the embedding is a Lean function, so
it never raises); when the derivative is exactly zero at the current iterate
and the criterion does not hold there, it stops with that iterate,
`converged = false` and the current iteration index; when the budget is
exhausted without convergence it returns `converged = false` with
`iterations = max_iters`. -/
theorem C7_theorem :
    (∀ (f df : ℚ → ℚ) (opts : NewtonOptions) (x0 : ℚ) (k : ℕ),
      k < opts.max_iters →
      (∀ j < k, ¬(|f (newtonIter f df x0 j)| < opts.tol) ∧
        df (newtonIter f df x0 j) ≠ 0) →
      ¬(|f (newtonIter f df x0 k)| < opts.tol) →
      df (newtonIter f df x0 k) = 0 →
      newton_raphson x0 f df opts = ⟨newtonIter f df x0 k, k, false⟩) ∧
    (∀ (f df : ℚ → ℚ) (opts : NewtonOptions) (x0 : ℚ),
      (∀ j < opts.max_iters, ¬(|f (newtonIter f df x0 j)| < opts.tol) ∧
        df (newtonIter f df x0 j) ≠ 0) →
      newton_raphson x0 f df opts =
        ⟨newtonIter f df x0 opts.max_iters, opts.max_iters, false⟩) :=
  ⟨newton_deriv_zero_at, newton_exhausted⟩

/-- Witness for C7: a zero derivative at the initial point stops immediately
without converging, and with `tol = 0` the budget is exhausted. -/
theorem C7_witness :
    newton_raphson 0 (fun _ => 1) (fun _ => 0) ⟨5, 0⟩ = ⟨0, 0, false⟩ ∧
    newton_raphson 0 (fun _ => 0) (fun _ => 1) ⟨2, 0⟩ = ⟨0, 2, false⟩ := by
  constructor
  · have h := C7_theorem.1 (fun _ => 1) (fun _ => 0) ⟨5, 0⟩ 0 0 (by simp)
      (by simp) (by simp [newtonIter]) (by simp)
    simpa [newtonIter] using h
  · have h := C7_theorem.2 (fun _ => 0) (fun _ => 1) ⟨2, 0⟩ 0
      (by intro j hj; exact ⟨by simp [newtonIter], by simp⟩)
    have h2 : newtonIter (fun _ => 0) (fun _ => 1) 0 2 = 0 := by
      simp [newtonIter, newtonStep]
    rw [h]
    rw [h2]

/-- Claim C8: registry lookup is case-insensitive and accepts the synonyms:
every name whose lowercase form is "fp32" or "float32" maps to the 32-bit
native precision, and every name whose lowercase form is outside the
recognized key set produces an error carrying the unknown name (surfaced to
the caller, not swallowed). -/
theorem C8_theorem :
    (∀ name : String, to_lower name = "fp32" ∨ to_lower name = "float32" →
      precision_from_string name = .ok .FP32) ∧
    (∀ name : String, to_lower name ∉ precisionMap.map Prod.fst →
      precision_from_string name = .error ("Unknown precision string: " ++ name)) := by
  constructor
  · intro name h
    unfold precision_from_string
    rcases h with h | h <;> rw [h] <;> rfl
  · intro name h
    simp only [precisionMap, List.map_cons, List.map_nil, List.mem_cons,
      List.not_mem_nil, or_false] at h
    push_neg at h
    obtain ⟨h1, h2, h3, h4, h5, h6, h7, h8, h9, h10⟩ := h
    simp [precision_from_string, precisionMap, List.lookup,
      beq_eq_false_iff_ne.mpr h1, beq_eq_false_iff_ne.mpr h2,
      beq_eq_false_iff_ne.mpr h3, beq_eq_false_iff_ne.mpr h4,
      beq_eq_false_iff_ne.mpr h5, beq_eq_false_iff_ne.mpr h6,
      beq_eq_false_iff_ne.mpr h7, beq_eq_false_iff_ne.mpr h8,
      beq_eq_false_iff_ne.mpr h9, beq_eq_false_iff_ne.mpr h10]

/-- Witness for C8 at the concrete names "FLOAT32", "Fp32" and
"quaternion". -/
theorem C8_witness :
    precision_from_string "FLOAT32" = .ok .FP32 ∧
    precision_from_string "Fp32" = .ok .FP32 ∧
    precision_from_string "quaternion"
      = .error ("Unknown precision string: " ++ "quaternion") :=
  ⟨C8_theorem.1 "FLOAT32" (Or.inr (by decide)),
   C8_theorem.1 "Fp32" (Or.inl (by decide)),
   C8_theorem.2 "quaternion" (by decide)⟩

/-- Claim C9: the FIR kernel at 64-bit precision with default options on the
reference cases: the two-tap moving average `h = [0.5, 0.5]` over
`x = [1, 2, 3, 4]` yields `[0.5, 1.5, 2.5, 3.5]` (causal zero-padded
convolution), and the single-tap identity `h = [1]` leaves `x = [1, 2, 3]`
unchanged. -/
theorem C9_theorem :
    fir_filter [1/2, 1/2] [1, 2, 3, 4] firDefaultOptions = [1/2, 3/2, 5/2, 7/2] ∧
    fir_filter [1] [1, 2, 3] firDefaultOptions = [1, 2, 3] := by
  constructor <;>
    norm_num [fir_filter, firCell, firDefaultOptions, getD, List.range_succ]

end FPStudy
